import Mathlib

/-!
Shallow embedding of the JustAskIT key-rotation and streaming-relay core
from `src/shared/schema.ts`: the `APIKeyManager` class (lines 768-821) and
the `/api/chat` route handler registered in `registerRoutes`
(lines 915-1050), together with the zod `chatRequestSchema` (lines 17-24).

Conventions of the embedding:
* JS `Date.now()` becomes an explicit `now : Nat` parameter (milliseconds);
  one handler invocation is modelled at a single instant.
* The `Map<number, number>` field `keyRateLimitedUntil` becomes a total
  function `Nat → Nat`; the source only reads it as
  `this.keyRateLimitedUntil.get(keyIndex) || 0`, so value `0` plays the
  role of an absent entry.
* JS strings handled by the streaming loop become `List Char`, so that
  `chunk.split` on a newline, `startsWith`, and `slice(6)` are structural
  list functions.
* `JSON.parse` followed by the optional chain
  `parsed.choices?.[0]?.delta?.content` is a parameter
  `parse : List Char → Option (Option (List Char))`:
  `none` models a parse exception (the `catch` branch),
  `some none` a successful parse whose content field is absent or null,
  `some (some c)` a successful parse with string content `c`.
  JS truthiness of `if (content)` holds exactly for a present, non-empty
  string, i.e. `some (some c)` with `c ≠ []`.
-/

/-- State of the `APIKeyManager` class: the credential pool `keys`, the
rotation cursor `currentKeyIndex`, and the rate-limit table
`keyRateLimitedUntil` (total function, `0` meaning no entry). -/
structure KeyManagerState where
  keys : List String
  currentKeyIndex : Nat
  keyRateLimitedUntil : Nat → Nat

/-- Embedding of `APIKeyManager.getNextAvailableKey` (schema.ts 787-805).
Returns the selected key (or `none`) together with the updated state:
scans up to `keys.length` offsets from the cursor, takes the first index
whose rate-limit expiry is `≤ now` (JS `now >= rateLimitedUntil`), sets the
cursor just past that index modulo the pool size, and returns the key. -/
def getNextAvailableKey (s : KeyManagerState) (now : Nat) :
    Option String × KeyManagerState :=
  if s.keys.length = 0 then (none, s)
  else
    match (List.range s.keys.length).find? (fun i =>
        decide (s.keyRateLimitedUntil ((s.currentKeyIndex + i) % s.keys.length) ≤ now)) with
    | none => (none, s)
    | some i =>
      let keyIndex := (s.currentKeyIndex + i) % s.keys.length
      (some (s.keys.getD keyIndex ""),
       { s with currentKeyIndex := (keyIndex + 1) % s.keys.length })

/-- Embedding of `APIKeyManager.markKeyAsRateLimited` (schema.ts 807-812):
`indexOf` finds the first occurrence of `key`; when found, the table entry
at that index is set to `now + duration` (default duration 60000 ms);
when the key is absent the call is a no-op. -/
def markKeyAsRateLimited (s : KeyManagerState) (key : String) (now : Nat)
    (duration : Nat := 60000) : KeyManagerState :=
  match s.keys.findIdx? (fun x => x == key) with
  | none => s
  | some keyIndex =>
    { s with keyRateLimitedUntil :=
        fun j => if j = keyIndex then now + duration else s.keyRateLimitedUntil j }

/-- Embedding of `APIKeyManager.allKeysRateLimited` (schema.ts 814-820):
`this.keys.every((_, index) => now < rateLimitedUntil)`. The source method
only reads state, so the embedding is a pure function. Note that on the
empty pool `every` is vacuously `true`. -/
def allKeysRateLimited (s : KeyManagerState) (now : Nat) : Bool :=
  (List.range s.keys.length).all (fun index =>
    decide (now < s.keyRateLimitedUntil index))

/-- Iterated selection: the results of `n` successive
`getNextAvailableKey` calls at one instant, threading the state. -/
def iterateKeys (s : KeyManagerState) (now : Nat) : Nat → List (Option String)
  | 0 => []
  | n + 1 =>
    let r := getNextAvailableKey s now
    r.1 :: iterateKeys r.2 now n

/-- Results of successive `getNextAvailableKey` calls made at the given
list of times, threading the state. -/
def callsAt (s : KeyManagerState) : List Nat → List (Option String)
  | [] => []
  | t :: ts =>
    let r := getNextAvailableKey s t
    r.1 :: callsAt r.2 ts

/-! Streaming relay (schema.ts 1007-1041). -/

/-- An event written to the caller by the streaming loop: either a content
frame `data: {"content": c}` or the terminal frame `data: [DONE]`. The
loop writes nothing else (a parse failure only logs), so the event type
has no error constructor. -/
inductive RelayEvent where
  | content (c : List Char)
  | done
  deriving DecidableEq

/-- Characters of the `[DONE]` sentinel payload. -/
def doneChars : List Char := "[DONE]".toList

/-- Embedding of JS `chunk.split` on the newline character: splits a
character list at every newline, keeping empty pieces (so a trailing
newline yields a final empty piece, exactly as in JS). -/
def splitNl : List Char → List (List Char)
  | [] => [[]]
  | c :: cs =>
    if c = '\n' then [] :: splitNl cs
    else
      match splitNl cs with
      | [] => [[c]]
      | s :: rest => (c :: s) :: rest

/-- Embedding of the per-line body of the streaming loop
(schema.ts 1016-1033): a line not starting with the six characters of the
SSE data tag is ignored; `line.slice(6)` equal to `[DONE]` forwards the
DONE frame; otherwise the payload is parsed and a content frame is written
only when the extracted content is truthy (a present, non-empty string);
a parse exception is caught, logged and produces no event. -/
def processLine (parse : List Char → Option (Option (List Char)))
    (line : List Char) : List RelayEvent :=
  match line with
  | 'd' :: 'a' :: 't' :: 'a' :: ':' :: ' ' :: data =>
    if data = doneChars then [RelayEvent.done]
    else
      match parse data with
      | none => []
      | some none => []
      | some (some c) => if c = [] then [] else [RelayEvent.content c]
  | _ => []

/-- One iteration of the read loop (schema.ts 1012-1035): the decoded
transport fragment is split on newlines and each piece is processed
independently. There is no carry-over buffer between fragments. -/
def processFragment (parse : List Char → Option (Option (List Char)))
    (frag : List Char) : List RelayEvent :=
  (splitNl frag).flatMap (processLine parse)

/-- Events written to the caller over a whole upstream body, delivered as
a list of transport fragments returned by successive `reader.read()`
calls. Each fragment is processed independently, in arrival order. -/
def relayEvents (parse : List Char → Option (Option (List Char)))
    (frags : List (List Char)) : List RelayEvent :=
  frags.flatMap (processFragment parse)

/-! Request validation (`chatRequestSchema`, schema.ts 17-24). -/

/-- A raw history item as received in the request body: a role string and
an optionally-present string content (zod requires `content` to be a
string; absence fails validation). -/
structure RawChatMessage where
  role : String
  content : Option String
  deriving DecidableEq

/-- The raw `/api/chat` request body before validation; each field may be
absent. -/
structure RawBody where
  message : Option String
  conversationHistory : Option (List RawChatMessage)
  conversationId : Option String

/-- A validated history message. -/
structure ChatMessage where
  role : String
  content : String
  deriving DecidableEq

/-- A validated chat request, the result of a successful
`chatRequestSchema.parse`. -/
structure ChatRequest where
  message : String
  conversationHistory : List ChatMessage
  conversationId : Option String
  deriving DecidableEq

/-- Role strings accepted by the zod enum. -/
def validRole (r : String) : Bool := r == "user" || r == "assistant"

/-- Embedding of `chatRequestSchema.parse` (schema.ts 17-24): `message`
must be a present string of length at least 1; `conversationHistory`,
when present, must be a list of items whose role is `user` or `assistant`
and whose content is a present string; `conversationId` is optional.
`none` models the thrown `ZodError`. -/
def parseChatRequest (b : RawBody) : Option ChatRequest :=
  match b.message with
  | none => none
  | some m =>
    if m.length = 0 then none
    else
      let hist := b.conversationHistory.getD []
      if hist.all (fun h => validRole h.role && h.content.isSome) then
        some ⟨m, hist.map (fun h => ⟨h.role, h.content.getD ""⟩), b.conversationId⟩
      else none

/-! The `/api/chat` handler (schema.ts 915-1050). -/

/-- An upstream `fetch` response: HTTP status and the body as a list of
transport fragments (the successive `reader.read()` results, already
decoded to text). -/
structure UpstreamResponse where
  status : Nat
  fragments : List (List Char)

/-- JS `response.ok`: status in the range 200-299. -/
def respOk (r : UpstreamResponse) : Bool :=
  decide (200 ≤ r.status) && decide (r.status < 300)

/-- The observable outcome of one `/api/chat` invocation. -/
inductive ChatOutcome where
  | badRequest
  | busyRateLimited
  | notConfigured
  | upstreamError (status : Nat)
  | streamed (events : List RelayEvent)
  deriving DecidableEq

/-- Result of one `/api/chat` invocation: the outcome sent to the caller,
the key-manager state after the invocation, and the list of credentials
used for upstream `fetch` calls, in call order. -/
structure ChatResult where
  outcome : ChatOutcome
  state : KeyManagerState
  upstreamCalls : List String

/-- Embedding of the `/api/chat` handler (schema.ts 915-1050).
Control flow mirrors the source line by line:
* `chatRequestSchema.parse` throws → the outer catch answers HTTP 400
  (`badRequest`), before any key is consumed and with no upstream call;
* `getNextAvailableKey` returns null → if `allKeysRateLimited()` then
  HTTP 503 with `rateLimited: true` (`busyRateLimited`) else HTTP 500
  "OpenRouter API key not configured" (`notConfigured`);
* otherwise exactly one `fetch` is issued with the selected key. On a
  non-ok response with status 429 the key is penalized (default 60000 ms)
  and a second key is requested: if none exists the handler answers 503
  `rateLimited: true`; if one exists the handler falls through — the
  source never issues a second `fetch` — and answers the upstream status
  with a generic error body. Any other non-ok status answers that status
  with the generic body. On an ok response the body fragments are relayed
  through the streaming loop. -/
def chatHandler (s : KeyManagerState) (now : Nat) (body : RawBody)
    (upstream : String → UpstreamResponse)
    (parse : List Char → Option (Option (List Char))) : ChatResult :=
  match parseChatRequest body with
  | none => ⟨ChatOutcome.badRequest, s, []⟩
  | some _req =>
    match getNextAvailableKey s now with
    | (none, s1) =>
      if allKeysRateLimited s1 now then ⟨ChatOutcome.busyRateLimited, s1, []⟩
      else ⟨ChatOutcome.notConfigured, s1, []⟩
    | (some apiKey, s1) =>
      let resp := upstream apiKey
      if respOk resp then
        ⟨ChatOutcome.streamed (relayEvents parse resp.fragments), s1, [apiKey]⟩
      else if resp.status = 429 then
        let s2 := markKeyAsRateLimited s1 apiKey now 60000
        match getNextAvailableKey s2 now with
        | (none, s3) => ⟨ChatOutcome.busyRateLimited, s3, [apiKey]⟩
        | (some _nextKey, s3) => ⟨ChatOutcome.upstreamError resp.status, s3, [apiKey]⟩
      else ⟨ChatOutcome.upstreamError resp.status, s1, [apiKey]⟩

/-- An SSE line carrying the given data payload: the six tag characters
of `data: ` followed by the payload (no newline; lines are what remains
after splitting). -/
def mkDataLine (payload : List Char) : List Char :=
  'd' :: 'a' :: 't' :: 'a' :: ':' :: ' ' :: payload

/-- A transport fragment consisting of the given lines, each terminated
by a newline: the shape of an upstream delivery in which no logical line
is split across a fragment boundary. -/
def completeLines (ls : List (List Char)) : List Char :=
  (ls.map (fun l => l ++ ['\n'])).flatten

/-- Upstream delta payload whose JSON content field is the string Hello. -/
def payloadHello : List Char :=
  "\x7b\"choices\":[\x7b\"delta\":\x7b\"content\":\"Hello\"\x7d\x7d]\x7d".toList

/-- Upstream delta payload whose JSON content field is the string He. -/
def payloadHe : List Char :=
  "\x7b\"choices\":[\x7b\"delta\":\x7b\"content\":\"He\"\x7d\x7d]\x7d".toList

/-- Upstream delta payload whose JSON content field is the string llo. -/
def payloadLlo : List Char :=
  "\x7b\"choices\":[\x7b\"delta\":\x7b\"content\":\"llo\"\x7d\x7d]\x7d".toList

/-- Upstream delta payload whose JSON content field is the empty string. -/
def payloadEmptyContent : List Char :=
  "\x7b\"choices\":[\x7b\"delta\":\x7b\"content\":\"\"\x7d\x7d]\x7d".toList

/-- Upstream delta payload with no content field in the delta object. -/
def payloadNoContent : List Char :=
  "\x7b\"choices\":[\x7b\"delta\":\x7b\x7d\x7d]\x7d".toList

/-- Concrete instance of the parse parameter, recording what
`JSON.parse` followed by `parsed.choices?.[0]?.delta?.content` yields on
the payload strings used in the concrete theorems below: each `payload`
definition above is valid JSON extracting the indicated content
(`payloadNoContent` parses but its delta has no content field), and every
other string fed to it below is a strict prefix or suffix of one of them,
hence not valid JSON, so `JSON.parse` throws. -/
def modelParse (d : List Char) : Option (Option (List Char)) :=
  if d = payloadHello then some (some "Hello".toList)
  else if d = payloadHe then some (some "He".toList)
  else if d = payloadLlo then some (some "llo".toList)
  else if d = payloadEmptyContent then some (some [])
  else if d = payloadNoContent then some none
  else none

/-- The full byte stream of an upstream body: one content-bearing data
line followed by one DONE line, each newline-terminated. -/
def fullStream : List Char :=
  mkDataLine payloadHello ++ '\n' :: (mkDataLine doneChars ++ ['\n'])

/-- First transport fragment of a delivery of `fullStream` that cuts the
content-bearing line after its eleventh character, in the middle of the
JSON payload. -/
def fragA : List Char := fullStream.take 11

/-- Remainder of `fullStream` after `fragA`. -/
def fragB : List Char := fullStream.drop 11

/-- A two-credential pool with no penalties, cursor at the start. -/
def poolAB : KeyManagerState := ⟨["keyA", "keyB"], 0, fun _ => 0⟩

/-- A single-credential pool with no penalties. -/
def poolA : KeyManagerState := ⟨["keyA"], 0, fun _ => 0⟩

/-- An unconfigured manager: the credential pool is empty. -/
def emptyPool : KeyManagerState := ⟨[], 0, fun _ => 0⟩

/-- A single-credential pool whose only key is penalized until t = 100. -/
def poolAPenalized : KeyManagerState := ⟨["keyA"], 0, fun _ => 100⟩

/-- A request body that passes `chatRequestSchema`. -/
def validBody : RawBody := ⟨some "hello", none, none⟩

/-- An upstream that answers HTTP 429 to every call. -/
def always429 : String → UpstreamResponse := fun _ => ⟨429, []⟩

/-! Helper lemmas about the key manager. -/

theorem getNextAvailableKey_keys (s : KeyManagerState) (now : Nat) :
    ((getNextAvailableKey s now).2).keys = s.keys := by
  unfold getNextAvailableKey
  split
  · rfl
  · split <;> rfl

theorem getNextAvailableKey_table (s : KeyManagerState) (now : Nat) :
    ((getNextAvailableKey s now).2).keyRateLimitedUntil = s.keyRateLimitedUntil := by
  unfold getNextAvailableKey
  split
  · rfl
  · split <;> rfl

theorem markKeyAsRateLimited_keys (s : KeyManagerState) (k : String) (now d : Nat) :
    (markKeyAsRateLimited s k now d).keys = s.keys := by
  unfold markKeyAsRateLimited
  split <;> rfl

theorem markKeyAsRateLimited_cursor (s : KeyManagerState) (k : String) (now d : Nat) :
    (markKeyAsRateLimited s k now d).currentKeyIndex = s.currentKeyIndex := by
  unfold markKeyAsRateLimited
  split <;> rfl

theorem markKeyAsRateLimited_table_hit (s : KeyManagerState) (k : String) (now d i : Nat)
    (h : s.keys.findIdx? (fun x => x == k) = some i) :
    (markKeyAsRateLimited s k now d).keyRateLimitedUntil i = now + d := by
  unfold markKeyAsRateLimited
  rw [h]
  simp

theorem markKeyAsRateLimited_table_other (s : KeyManagerState) (k : String) (now d i j : Nat)
    (h : s.keys.findIdx? (fun x => x == k) = some i) (hj : j ≠ i) :
    (markKeyAsRateLimited s k now d).keyRateLimitedUntil j = s.keyRateLimitedUntil j := by
  unfold markKeyAsRateLimited
  rw [h]
  simp [hj]

theorem markKeyAsRateLimited_noop (s : KeyManagerState) (k : String) (now d : Nat)
    (hk : k ∉ s.keys) : markKeyAsRateLimited s k now d = s := by
  unfold markKeyAsRateLimited
  have h : s.keys.findIdx? (fun x => x == k) = none := by
    rw [List.findIdx?_eq_none_iff]
    intro x hx
    simp only [beq_eq_false_iff_ne]
    exact fun e => hk (e ▸ hx)
  rw [h]

theorem getNext_fresh (keys : List String) (c now : Nat) (h : 0 < keys.length) :
    getNextAvailableKey ⟨keys, c, fun _ => 0⟩ now =
      (some (keys.getD (c % keys.length) ""),
       ⟨keys, (c % keys.length + 1) % keys.length, fun _ => 0⟩) := by
  obtain ⟨m, hm⟩ : ∃ m, keys.length = m + 1 := ⟨keys.length - 1, by omega⟩
  simp only [getNextAvailableKey]
  rw [if_neg (show ¬keys.length = 0 by omega)]
  have hfind :
      (List.range keys.length).find? (fun i => decide ((fun _ => (0 : Nat))
          ((c + i) % keys.length) ≤ now)) = some 0 := by
    rw [hm, List.range_succ_eq_map]
    exact List.find?_cons_of_pos _ (by simp)
  rw [hfind]
  simp

theorem iterateKeys_fresh (keys : List String) (now : Nat) (h : 0 < keys.length) :
    ∀ (m c : Nat), iterateKeys ⟨keys, c, fun _ => 0⟩ now m =
      (List.range m).map (fun i => some (keys.getD ((c + i) % keys.length) "")) := by
  intro m
  induction m with
  | zero => intro c; rfl
  | succ n ih =>
    intro c
    rw [iterateKeys, getNext_fresh keys c now h]
    rw [ih ((c % keys.length + 1) % keys.length)]
    rw [List.range_succ_eq_map, List.map_cons, List.map_map]
    have harg : ∀ i : Nat,
        ((c % keys.length + 1) % keys.length + i) % keys.length =
          (c + Nat.succ i) % keys.length := by
      intro i
      calc ((c % keys.length + 1) % keys.length + i) % keys.length
          = (c % keys.length + 1 + i) % keys.length := Nat.mod_add_mod _ _ _
        _ = (c % keys.length + (1 + i)) % keys.length := by rw [Nat.add_assoc]
        _ = (c + (1 + i)) % keys.length := Nat.mod_add_mod _ _ _
        _ = (c + Nat.succ i) % keys.length := by rw [Nat.add_comm 1 i]
    congr 1
    refine List.map_congr_left ?_
    intro i _
    simp only [Function.comp_apply]
    rw [harg i]

theorem nodup_rotation (c N : Nat) :
    ((List.range N).map (fun i => (c + i) % N)).Nodup := by
  refine List.Nodup.map_on ?_ (List.nodup_range N)
  intro x hx y hy hxy
  rw [List.mem_range] at hx hy
  have hmod : x ≡ y [MOD N] := Nat.ModEq.add_left_cancel' c hxy
  rwa [Nat.ModEq, Nat.mod_eq_of_lt hx, Nat.mod_eq_of_lt hy] at hmod

theorem getNext_blocked_ne (w : KeyManagerState) (k : String) (ik now : Nat)
    (hblock : now < w.keyRateLimitedUntil ik)
    (huniq : ∀ j, j < w.keys.length → w.keys.getD j "" = k → j = ik) :
    (getNextAvailableKey w now).1 ≠ some k := by
  unfold getNextAvailableKey
  split
  · simp
  · rename_i hlen
    split
    · simp
    · rename_i i heq
      simp only [ne_eq, Option.some.injEq]
      intro hcontra
      have hki : (w.currentKeyIndex + i) % w.keys.length < w.keys.length :=
        Nat.mod_lt _ (by omega)
      have hik' := huniq _ hki hcontra
      have hp := List.find?_some heq
      rw [decide_eq_true_eq, hik'] at hp
      omega

theorem callsAt_blocked (k : String) (ik : Nat) :
    ∀ (ts : List Nat) (w : KeyManagerState),
      (∀ j, j < w.keys.length → w.keys.getD j "" = k → j = ik) →
      (∀ u ∈ ts, u < w.keyRateLimitedUntil ik) →
      ∀ r ∈ callsAt w ts, r ≠ some k := by
  intro ts
  induction ts with
  | nil =>
    intro w _ _ r hr
    simp [callsAt] at hr
  | cons t ts ih =>
    intro w huniq htimes r hr
    rw [callsAt] at hr
    rcases List.mem_cons.mp hr with h1 | h2
    · subst h1
      exact getNext_blocked_ne w k ik t (htimes t (List.mem_cons_self t ts)) huniq
    · refine ih (getNextAvailableKey w t).2 ?_ ?_ r h2
      · rw [getNextAvailableKey_keys]
        exact huniq
      · intro u hu
        rw [getNextAvailableKey_table]
        exact htimes u (List.mem_cons_of_mem t hu)

/-! Helper lemmas about the streaming loop. -/

theorem splitNl_append_newline (l rest : List Char) (h : '\n' ∉ l) :
    splitNl (l ++ '\n' :: rest) = l :: splitNl rest := by
  induction l with
  | nil => simp [splitNl]
  | cons c cs ih =>
    have hc : c ≠ '\n' := fun e => h (e ▸ List.mem_cons_self c cs)
    have h' : '\n' ∉ cs := fun m => h (List.mem_cons_of_mem c m)
    rw [List.cons_append, splitNl, if_neg hc, ih h']

theorem splitNl_ne_nil (l : List Char) : splitNl l ≠ [] := by
  induction l with
  | nil => simp [splitNl]
  | cons c cs ih =>
    rw [splitNl]
    split
    · simp
    · split
      · simp
      · simp

theorem splitNl_completeLines (ls : List (List Char)) (h : ∀ l ∈ ls, '\n' ∉ l) :
    splitNl (completeLines ls) = ls ++ [[]] := by
  induction ls with
  | nil => rfl
  | cons l ls ih =>
    have hstep : completeLines (l :: ls) = l ++ '\n' :: completeLines ls := by
      simp [completeLines, List.map_cons, List.flatten_cons]
    rw [hstep, splitNl_append_newline l _ (h l (List.mem_cons_self l ls))]
    rw [ih (fun x hx => h x (List.mem_cons_of_mem l hx))]
    rfl

theorem processLine_nil (parse : List Char → Option (Option (List Char))) :
    processLine parse [] = [] := rfl

theorem processLine_mkDataLine (parse : List Char → Option (Option (List Char)))
    (d : List Char) :
    processLine parse (mkDataLine d) =
      (if d = doneChars then [RelayEvent.done]
       else
         match parse d with
         | none => []
         | some none => []
         | some (some c) => if c = [] then [] else [RelayEvent.content c]) := rfl

theorem newline_not_mem_mkDataLine (d : List Char) (h : '\n' ∉ d) :
    '\n' ∉ mkDataLine d := by
  intro hm
  simp only [mkDataLine, List.mem_cons] at hm
  rcases hm with e | e | e | e | e | e | hm
  · exact absurd e (by decide)
  · exact absurd e (by decide)
  · exact absurd e (by decide)
  · exact absurd e (by decide)
  · exact absurd e (by decide)
  · exact absurd e (by decide)
  · exact h hm

theorem processFragment_line (parse : List Char → Option (Option (List Char)))
    (l : List Char) (h : '\n' ∉ l) :
    processFragment parse (l ++ ['\n']) = processLine parse l := by
  rw [processFragment]
  have e : l ++ ['\n'] = l ++ '\n' :: [] := rfl
  rw [e, splitNl_append_newline l [] h]
  show processLine parse l ++ (splitNl []).flatMap (processLine parse) = _
  simp [splitNl, processLine_nil]

theorem flatMap_flatten {α β : Type} (L : List (List α)) (f : α → List β) :
    L.flatten.flatMap f = L.flatMap (fun l => l.flatMap f) := by
  induction L with
  | nil => rfl
  | cons l L ih => simp [List.flatten_cons, List.flatMap_append, ih]

theorem relayEvents_groups (parse : List Char → Option (Option (List Char)))
    (groups : List (List (List Char)))
    (h : ∀ g ∈ groups, ∀ l ∈ g, '\n' ∉ l) :
    relayEvents parse (groups.map completeLines) =
      groups.flatten.flatMap (processLine parse) := by
  induction groups with
  | nil => rfl
  | cons g groups ih =>
    rw [List.map_cons, relayEvents, List.flatMap_cons, List.flatten_cons,
        List.flatMap_append]
    rw [show (groups.map completeLines).flatMap (processFragment parse) =
          relayEvents parse (groups.map completeLines) from rfl]
    rw [ih (fun x hx => h x (List.mem_cons_of_mem g hx))]
    congr 1
    rw [processFragment, splitNl_completeLines g (h g (List.mem_cons_self g groups))]
    rw [List.flatMap_append]
    simp [processLine_nil]

theorem flatMap_processLine_data (parse : List Char → Option (Option (List Char)))
    (ps : List (List Char × List Char))
    (hps : ∀ q ∈ ps, parse q.1 = some (some q.2) ∧ q.2 ≠ [] ∧ q.1 ≠ doneChars) :
    (ps.map (fun q => mkDataLine q.1)).flatMap (processLine parse) =
      ps.map (fun q => RelayEvent.content q.2) := by
  induction ps with
  | nil => rfl
  | cons q ps ih =>
    obtain ⟨h1, h2, h3⟩ := hps q (List.mem_cons_self q ps)
    rw [List.map_cons, List.flatMap_cons, processLine_mkDataLine, if_neg h3, h1]
    rw [ih (fun x hx => hps x (List.mem_cons_of_mem q hx))]
    simp [h2]

theorem content_mem_processLine (parse : List Char → Option (Option (List Char)))
    (line c : List Char) (h : RelayEvent.content c ∈ processLine parse line) :
    c ≠ [] := by
  unfold processLine at h
  split at h
  · split at h
    · simp at h
    · split at h
      · simp at h
      · simp at h
      · rename_i c' _
        split at h
        · simp at h
        · rename_i hc'
          simp only [List.mem_singleton, RelayEvent.content.injEq] at h
          subst h
          exact hc'
  · simp at h

theorem content_mem_relayEvents (parse : List Char → Option (Option (List Char)))
    (frags : List (List Char)) (c : List Char)
    (h : RelayEvent.content c ∈ relayEvents parse frags) : c ≠ [] := by
  rw [relayEvents] at h
  rcases List.mem_flatMap.mp h with ⟨frag, _, hf⟩
  rw [processFragment] at hf
  rcases List.mem_flatMap.mp hf with ⟨line, _, hl⟩
  exact content_mem_processLine parse line c hl

/-! Claim theorems. -/

/-- C1: evaluation of the handler at the failing input. With two fresh
credentials and an upstream that answers 429, the handler makes exactly
one upstream call (with keyA), and although a second usable credential
exists at the decision point (keyB is returned by the post-penalty
selection), no retry is issued: the caller receives the upstream 429
status with a generic error body instead of a retried stream. With a
single credential, the handler answers the 503 rate-limited exhaustion
signal after the one upstream call, with zero retries — that half of the
claim holds. The claimed single retry with a different credential does
not exist in the code: the second credential is fetched into an unused
variable and the handler falls through to the generic error response. -/
theorem chat429_answers_without_retry :
    (chatHandler poolAB 0 validBody always429 modelParse).outcome
        = ChatOutcome.upstreamError 429 ∧
    (chatHandler poolAB 0 validBody always429 modelParse).upstreamCalls = ["keyA"] ∧
    (getNextAvailableKey (markKeyAsRateLimited poolAB "keyA" 0 60000) 0).1 = some "keyB" ∧
    (chatHandler poolA 0 validBody always429 modelParse).outcome
        = ChatOutcome.busyRateLimited ∧
    (chatHandler poolA 0 validBody always429 modelParse).upstreamCalls = ["keyA"] := by
  decide

/-- C3: evaluation of the handler on an empty credential pool. Because
`[].every` is vacuously true, `allKeysRateLimited` answers `true` on the
empty pool, so the handler reports the transient-exhaustion outcome
(HTTP 503 with `rateLimited: true`) instead of the distinct
server-misconfiguration error: the 500 "API key not configured" branch is
unreachable. The last conjunct shows the correct half of the claim: a
non-empty, fully penalized pool also yields the 503 exhaustion signal. -/
theorem empty_pool_reported_as_rate_limited :
    (chatHandler emptyPool 0 validBody always429 modelParse).outcome
        = ChatOutcome.busyRateLimited ∧
    (chatHandler emptyPool 0 validBody always429 modelParse).outcome
        ≠ ChatOutcome.notConfigured ∧
    (chatHandler emptyPool 0 validBody always429 modelParse).upstreamCalls = [] ∧
    allKeysRateLimited emptyPool 0 = true ∧
    (chatHandler poolAPenalized 0 validBody always429 modelParse).outcome
        = ChatOutcome.busyRateLimited := by
  decide

/-- C4: round-robin selection. For any pool of size N ≥ 1 with no
penalties and cursor c < N, the N successive selections return the keys
at indices (c + i) mod N for i = 0 .. N-1, those N indices are pairwise
distinct (each credential is returned exactly once before any repeats),
and a single call returns the first usable credential at the cursor and
advances the cursor just past it, wrapping modulo the pool size. -/
theorem round_robin_rotation (keys : List String) (c now : Nat)
    (h1 : 0 < keys.length) (hc : c < keys.length) :
    iterateKeys ⟨keys, c, fun _ => 0⟩ now keys.length =
        (List.range keys.length).map
          (fun i => some (keys.getD ((c + i) % keys.length) "")) ∧
      ((List.range keys.length).map (fun i => (c + i) % keys.length)).Nodup ∧
      getNextAvailableKey ⟨keys, c, fun _ => 0⟩ now =
        (some (keys.getD c ""), ⟨keys, (c + 1) % keys.length, fun _ => 0⟩) := by
  refine ⟨iterateKeys_fresh keys now h1 keys.length c, nodup_rotation c keys.length, ?_⟩
  rw [getNext_fresh keys c now h1, Nat.mod_eq_of_lt hc]

/-- Witness for C4 at the pool keyA, keyB with cursor 1 and time 7. -/
theorem round_robin_rotation_witness :
    0 < (["keyA", "keyB"] : List String).length ∧
    1 < (["keyA", "keyB"] : List String).length ∧
    (iterateKeys ⟨["keyA", "keyB"], 1, fun _ => 0⟩ 7 (["keyA", "keyB"] : List String).length =
        (List.range (["keyA", "keyB"] : List String).length).map
          (fun i => some ((["keyA", "keyB"] : List String).getD
            ((1 + i) % (["keyA", "keyB"] : List String).length) "")) ∧
      ((List.range (["keyA", "keyB"] : List String).length).map
          (fun i => (1 + i) % (["keyA", "keyB"] : List String).length)).Nodup ∧
      getNextAvailableKey ⟨["keyA", "keyB"], 1, fun _ => 0⟩ 7 =
        (some ((["keyA", "keyB"] : List String).getD 1 ""),
         ⟨["keyA", "keyB"], (1 + 1) % (["keyA", "keyB"] : List String).length,
          fun _ => 0⟩)) :=
  ⟨by decide, by decide,
    round_robin_rotation ["keyA", "keyB"] 1 7 (by decide) (by decide)⟩

/-- C5 counterexample: the claim fails as stated because a later, shorter
penalty overwrites an earlier one. Penalizing keyA for 60000 ms at t = 0
and then again for 1 ms at t = 0 leaves the expiry at 1, so the selection
at t = 30000 — strictly before 0 + 60000 — returns keyA. -/
theorem penalize_overwrite_breaks_expiry_cex :
    (getNextAvailableKey
        (markKeyAsRateLimited (markKeyAsRateLimited poolA "keyA" 0 60000) "keyA" 0 1)
        30000).1 = some "keyA" ∧ (30000 : Nat) < 0 + 60000 := by
  decide

/-- C5 (amended): after penalize(k, d) at time t, provided k occupies at
most one slot of the pool (index ik, its first occurrence) and no further
penalize call intervenes, no later selection made at a time strictly
before t + d returns k — any number of selection calls may happen in
between, since selection only moves the cursor. -/
theorem penalized_key_not_returned_before_expiry (s : KeyManagerState) (k : String)
    (ik t d : Nat) (hfind : s.keys.findIdx? (fun x => x == k) = some ik)
    (huniq : ∀ j, j < s.keys.length → s.keys.getD j "" = k → j = ik)
    (times : List Nat) (htimes : ∀ u ∈ times, u < t + d) :
    ∀ r ∈ callsAt (markKeyAsRateLimited s k t d) times, r ≠ some k := by
  refine callsAt_blocked k ik times (markKeyAsRateLimited s k t d) ?_ ?_
  · intro j hj
    rw [markKeyAsRateLimited_keys] at hj ⊢
    exact huniq j hj
  · intro u hu
    rw [markKeyAsRateLimited_table_hit s k t d ik hfind]
    exact htimes u hu

/-- Witness for C5 (amended) at the two-key pool, penalizing keyA for
60000 ms at t = 0 and selecting at t = 30000 and t = 59999. -/
theorem penalized_key_not_returned_before_expiry_witness :
    (["keyA", "keyB"] : List String).findIdx? (fun x => x == "keyA") = some 0 ∧
    (∀ j, j < (["keyA", "keyB"] : List String).length →
        (["keyA", "keyB"] : List String).getD j "" = "keyA" → j = 0) ∧
    (∀ u ∈ [30000, 59999], u < 0 + 60000) ∧
    ∀ r ∈ callsAt (markKeyAsRateLimited ⟨["keyA", "keyB"], 0, fun _ => 0⟩ "keyA" 0 60000)
        [30000, 59999], r ≠ some "keyA" :=
  ⟨by decide, by decide, by decide,
    penalized_key_not_returned_before_expiry ⟨["keyA", "keyB"], 0, fun _ => 0⟩ "keyA"
      0 0 60000 (by decide) (by decide) [30000, 59999] (by decide)⟩

/-- C6: penalizing a recognized credential unconditionally sets the expiry
entry at its first-occurrence index to now + duration, whatever the table
held before (the state s is arbitrary, so any prior entry is overwritten);
in particular a second penalty replaces the first even when its expiry is
earlier — last write wins, not maximum-of-penalties. -/
theorem penalize_last_write_wins (s : KeyManagerState) (k : String)
    (i t1 d1 t2 d2 : Nat)
    (hfind : s.keys.findIdx? (fun x => x == k) = some i) :
    (markKeyAsRateLimited s k t1 d1).keyRateLimitedUntil i = t1 + d1 ∧
    (markKeyAsRateLimited (markKeyAsRateLimited s k t1 d1) k t2 d2).keyRateLimitedUntil i
      = t2 + d2 := by
  have hfind2 : (markKeyAsRateLimited s k t1 d1).keys.findIdx? (fun x => x == k)
      = some i := by
    rw [markKeyAsRateLimited_keys]
    exact hfind
  exact ⟨markKeyAsRateLimited_table_hit s k t1 d1 i hfind,
    markKeyAsRateLimited_table_hit _ k t2 d2 i hfind2⟩

/-- Witness for C6: a 60000 ms penalty then a 1 ms penalty on keyA. -/
theorem penalize_last_write_wins_witness :
    (["keyA"] : List String).findIdx? (fun x => x == "keyA") = some 0 ∧
    ((markKeyAsRateLimited poolA "keyA" 0 60000).keyRateLimitedUntil 0 = 0 + 60000 ∧
      (markKeyAsRateLimited (markKeyAsRateLimited poolA "keyA" 0 60000)
          "keyA" 0 1).keyRateLimitedUntil 0 = 0 + 1) :=
  ⟨by decide, penalize_last_write_wins poolA "keyA" 0 0 60000 0 1 (by decide)⟩

/-- C2 counterexample: the byte-for-byte relay guarantee fails when one
logical SSE line is split across two transport fragments. The same byte
stream (one content-bearing data line carrying Hello, then a DONE line)
delivered whole forwards the content increment and the DONE frame; the
identical bytes delivered as two fragments cut inside the data line
forward only the DONE frame — the Hello increment is silently lost,
because each fragment is split on newlines independently and neither
piece of the cut line survives (the first piece fails to parse and is
skipped, the second does not start with the data tag and is ignored). -/
theorem split_line_drops_content :
    fragA ++ fragB = fullStream ∧
    relayEvents modelParse [fullStream] =
      [RelayEvent.content "Hello".toList, RelayEvent.done] ∧
    relayEvents modelParse [fragA, fragB] = [RelayEvent.done] := by
  decide

/-- C2 (amended): when every logical line arrives wholly within one
transport fragment (each fragment is a concatenation of newline-terminated
lines), and the lines are data lines whose payloads parse to non-empty
contents followed by a single DONE line, the caller receives exactly the
content increments in upstream arrival order terminated by exactly one
DONE frame. A data line split across a fragment boundary is not
reassembled (see the counterexample), so the claim holds only under this
no-split hypothesis. -/
theorem stream_relays_contents_in_order
    (parse : List Char → Option (Option (List Char)))
    (groups : List (List (List Char))) (ps : List (List Char × List Char))
    (hnl : ∀ g ∈ groups, ∀ l ∈ g, '\n' ∉ l)
    (hlines : groups.flatten =
      ps.map (fun q => mkDataLine q.1) ++ [mkDataLine doneChars])
    (hps : ∀ q ∈ ps, parse q.1 = some (some q.2) ∧ q.2 ≠ [] ∧ q.1 ≠ doneChars) :
    relayEvents parse (groups.map completeLines) =
      ps.map (fun q => RelayEvent.content q.2) ++ [RelayEvent.done] := by
  rw [relayEvents_groups parse groups hnl, hlines, List.flatMap_append,
      flatMap_processLine_data parse ps hps]
  congr 1

/-- Witness for C2 (amended): two content lines delivered in two whole
fragments, the second fragment also carrying the DONE line. -/
theorem stream_relays_contents_in_order_witness :
    (∀ g ∈ [[mkDataLine payloadHe], [mkDataLine payloadLlo, mkDataLine doneChars]],
        ∀ l ∈ g, '\n' ∉ l) ∧
    ([[mkDataLine payloadHe], [mkDataLine payloadLlo, mkDataLine doneChars]].flatten =
        [(payloadHe, "He".toList), (payloadLlo, "llo".toList)].map
          (fun q => mkDataLine q.1) ++ [mkDataLine doneChars]) ∧
    (∀ q ∈ [(payloadHe, "He".toList), (payloadLlo, "llo".toList)],
        modelParse q.1 = some (some q.2) ∧ q.2 ≠ [] ∧ q.1 ≠ doneChars) ∧
    relayEvents modelParse
        ([[mkDataLine payloadHe],
          [mkDataLine payloadLlo, mkDataLine doneChars]].map completeLines) =
      [(payloadHe, "He".toList), (payloadLlo, "llo".toList)].map
          (fun q => RelayEvent.content q.2) ++ [RelayEvent.done] :=
  ⟨by decide, by decide, by decide,
    stream_relays_contents_in_order modelParse
      [[mkDataLine payloadHe], [mkDataLine payloadLlo, mkDataLine doneChars]]
      [(payloadHe, "He".toList), (payloadLlo, "llo".toList)]
      (by decide) (by decide) (by decide)⟩

/-- C7: a malformed data line is skipped without aborting the stream and
without surfacing any error: a stream of one unparsable data line followed
by two data lines with non-empty contents produces exactly the two content
events — no error event exists in the relay's event vocabulary, since the
catch branch only logs. -/
theorem malformed_fragment_skipped
    (parse : List Char → Option (Option (List Char))) (d1 d2 d3 c2 c3 : List Char)
    (h1 : parse d1 = none) (hd1 : d1 ≠ doneChars) (hn1 : '\n' ∉ d1)
    (h2 : parse d2 = some (some c2)) (hc2 : c2 ≠ []) (hd2 : d2 ≠ doneChars)
    (hn2 : '\n' ∉ d2)
    (h3 : parse d3 = some (some c3)) (hc3 : c3 ≠ []) (hd3 : d3 ≠ doneChars)
    (hn3 : '\n' ∉ d3) :
    relayEvents parse
        [mkDataLine d1 ++ ['\n'], mkDataLine d2 ++ ['\n'], mkDataLine d3 ++ ['\n']] =
      [RelayEvent.content c2, RelayEvent.content c3] := by
  rw [relayEvents, List.flatMap_cons, List.flatMap_cons, List.flatMap_cons,
      List.flatMap_nil]
  rw [processFragment_line parse _ (newline_not_mem_mkDataLine d1 hn1),
      processFragment_line parse _ (newline_not_mem_mkDataLine d2 hn2),
      processFragment_line parse _ (newline_not_mem_mkDataLine d3 hn3)]
  rw [processLine_mkDataLine parse d1, if_neg hd1, h1]
  rw [processLine_mkDataLine parse d2, if_neg hd2, h2]
  rw [processLine_mkDataLine parse d3, if_neg hd3, h3]
  simp [hc2, hc3]

/-- Witness for C7: a truncated JSON payload (which JSON.parse rejects)
followed by the He and llo payloads. -/
theorem malformed_fragment_skipped_witness :
    (modelParse "\x7b\"cho".toList = none ∧ "\x7b\"cho".toList ≠ doneChars ∧
      '\n' ∉ "\x7b\"cho".toList) ∧
    (modelParse payloadHe = some (some "He".toList) ∧ "He".toList ≠ [] ∧
      payloadHe ≠ doneChars ∧ '\n' ∉ payloadHe) ∧
    (modelParse payloadLlo = some (some "llo".toList) ∧ "llo".toList ≠ [] ∧
      payloadLlo ≠ doneChars ∧ '\n' ∉ payloadLlo) ∧
    relayEvents modelParse
        [mkDataLine "\x7b\"cho".toList ++ ['\n'], mkDataLine payloadHe ++ ['\n'],
         mkDataLine payloadLlo ++ ['\n']] =
      [RelayEvent.content "He".toList, RelayEvent.content "llo".toList] :=
  ⟨⟨by decide, by decide, by decide⟩,
   ⟨by decide, by decide, by decide, by decide⟩,
   ⟨by decide, by decide, by decide, by decide⟩,
   malformed_fragment_skipped modelParse "\x7b\"cho".toList payloadHe payloadLlo
     "He".toList "llo".toList (by decide) (by decide) (by decide) (by decide)
     (by decide) (by decide) (by decide) (by decide) (by decide) (by decide)
     (by decide)⟩

/-- C8: a request body that fails the chat request schema is answered with
HTTP 400 before any credential is consumed and before any upstream call:
the handler returns the key-manager state unchanged (cursor and rate-limit
table untouched) and an empty list of upstream calls. The closed conjuncts
show the schema failing on a missing message, an empty message, a history
item with an invalid role, and a history item with missing content. -/
theorem invalid_body_rejected_before_key_use (s : KeyManagerState) (now : Nat)
    (body : RawBody) (upstream : String → UpstreamResponse)
    (parse : List Char → Option (Option (List Char)))
    (hbad : parseChatRequest body = none) :
    chatHandler s now body upstream parse = ⟨ChatOutcome.badRequest, s, []⟩ ∧
    parseChatRequest ⟨none, none, none⟩ = none ∧
    parseChatRequest ⟨some "", none, none⟩ = none ∧
    parseChatRequest ⟨some "hi", some [⟨"system", some "x"⟩], none⟩ = none ∧
    parseChatRequest ⟨some "hi", some [⟨"user", none⟩], none⟩ = none := by
  refine ⟨?_, by decide, by decide, by decide, by decide⟩
  unfold chatHandler
  rw [hbad]

/-- Witness for C8 at the body with no message field. -/
theorem invalid_body_rejected_before_key_use_witness :
    parseChatRequest ⟨none, none, none⟩ = none ∧
    (chatHandler poolAB 0 ⟨none, none, none⟩ always429 modelParse =
        ⟨ChatOutcome.badRequest, poolAB, []⟩ ∧
      parseChatRequest ⟨none, none, none⟩ = none ∧
      parseChatRequest ⟨some "", none, none⟩ = none ∧
      parseChatRequest ⟨some "hi", some [⟨"system", some "x"⟩], none⟩ = none ∧
      parseChatRequest ⟨some "hi", some [⟨"user", none⟩], none⟩ = none) :=
  ⟨by decide,
    invalid_body_rejected_before_key_use poolAB 0 ⟨none, none, none⟩ always429
      modelParse (by decide)⟩

/-- C9: frame conditions of the key-manager operations. Selection mutates
only the rotation cursor: the key list and the whole rate-limit table are
unchanged. Penalizing mutates only the rate-limit entry at the first
occurrence index of the given key: key list and cursor are unchanged, the
table is unchanged at every other index, and the call is a complete no-op
when the key is not in the pool. The `allKeysRateLimited` method only
reads state and is therefore embedded as a pure function of the state. -/
theorem manager_frame_conditions :
    (∀ (s : KeyManagerState) (now : Nat),
        ((getNextAvailableKey s now).2).keys = s.keys ∧
        ((getNextAvailableKey s now).2).keyRateLimitedUntil = s.keyRateLimitedUntil) ∧
    (∀ (s : KeyManagerState) (k : String) (now d : Nat),
        (markKeyAsRateLimited s k now d).keys = s.keys ∧
        (markKeyAsRateLimited s k now d).currentKeyIndex = s.currentKeyIndex) ∧
    (∀ (s : KeyManagerState) (k : String) (now d i j : Nat),
        s.keys.findIdx? (fun x => x == k) = some i → j ≠ i →
        (markKeyAsRateLimited s k now d).keyRateLimitedUntil j =
          s.keyRateLimitedUntil j) ∧
    (∀ (s : KeyManagerState) (k : String) (now d : Nat), k ∉ s.keys →
        markKeyAsRateLimited s k now d = s) :=
  ⟨fun s now => ⟨getNextAvailableKey_keys s now, getNextAvailableKey_table s now⟩,
   fun s k now d =>
     ⟨markKeyAsRateLimited_keys s k now d, markKeyAsRateLimited_cursor s k now d⟩,
   fun s k now d i j h hj => markKeyAsRateLimited_table_other s k now d i j h hj,
   fun s k now d hk => markKeyAsRateLimited_noop s k now d hk⟩

/-- Witness for C9 at the two-key pool. -/
theorem manager_frame_conditions_witness :
    ((getNextAvailableKey poolAB 5).2.keys = poolAB.keys ∧
      (getNextAvailableKey poolAB 5).2.keyRateLimitedUntil =
        poolAB.keyRateLimitedUntil) ∧
    ((markKeyAsRateLimited poolAB "keyA" 3 10).keys = poolAB.keys ∧
      (markKeyAsRateLimited poolAB "keyA" 3 10).currentKeyIndex =
        poolAB.currentKeyIndex) ∧
    (poolAB.keys.findIdx? (fun x => x == "keyA") = some 0 ∧ (1 : Nat) ≠ 0 ∧
      (markKeyAsRateLimited poolAB "keyA" 3 10).keyRateLimitedUntil 1 =
        poolAB.keyRateLimitedUntil 1) ∧
    "nope" ∉ poolAB.keys ∧
    markKeyAsRateLimited poolAB "nope" 3 10 = poolAB :=
  ⟨manager_frame_conditions.1 poolAB 5,
   manager_frame_conditions.2.1 poolAB "keyA" 3 10,
   ⟨by decide, by decide,
     manager_frame_conditions.2.2.1 poolAB "keyA" 3 10 0 1 (by decide) (by decide)⟩,
   by decide,
   manager_frame_conditions.2.2.2 poolAB "nope" 3 10 (by decide)⟩

/-- C10: every content frame written to the caller carries a non-empty
string, because the write is guarded by JS truthiness of the extracted
content; a delta whose content field is absent or null (parse yields
some none) or is the empty string (parse yields some (some [])) produces
no event at all. -/
theorem content_events_nonempty :
    (∀ (parse : List Char → Option (Option (List Char))) (frags : List (List Char))
        (c : List Char), RelayEvent.content c ∈ relayEvents parse frags → c ≠ []) ∧
    (∀ (parse : List Char → Option (Option (List Char))) (d : List Char),
        d ≠ doneChars → parse d = some none →
        processLine parse (mkDataLine d) = []) ∧
    (∀ (parse : List Char → Option (Option (List Char))) (d : List Char),
        d ≠ doneChars → parse d = some (some []) →
        processLine parse (mkDataLine d) = []) := by
  refine ⟨content_mem_relayEvents, ?_, ?_⟩
  · intro parse d hd hp
    rw [processLine_mkDataLine, if_neg hd, hp]
  · intro parse d hd hp
    rw [processLine_mkDataLine, if_neg hd, hp]
    simp

/-- Witness for C10: the He payload yields a non-empty content event; the
no-content and empty-content payloads yield no event. -/
theorem content_events_nonempty_witness :
    (RelayEvent.content "He".toList ∈
        relayEvents modelParse [mkDataLine payloadHe ++ ['\n']] ∧
      "He".toList ≠ []) ∧
    (payloadNoContent ≠ doneChars ∧ modelParse payloadNoContent = some none ∧
      processLine modelParse (mkDataLine payloadNoContent) = []) ∧
    (payloadEmptyContent ≠ doneChars ∧
      modelParse payloadEmptyContent = some (some []) ∧
      processLine modelParse (mkDataLine payloadEmptyContent) = []) :=
  ⟨⟨by decide, content_events_nonempty.1 modelParse
      [mkDataLine payloadHe ++ ['\n']] "He".toList (by decide)⟩,
   ⟨by decide, by decide, content_events_nonempty.2.1 modelParse payloadNoContent
      (by decide) (by decide)⟩,
   ⟨by decide, by decide, content_events_nonempty.2.2 modelParse payloadEmptyContent
      (by decide) (by decide)⟩⟩
